import Mathlib

/-!
Verification of the pokemon-card-scraper repository
(src/pokemon_card_scraper.py) against its natural-language specification.

The Python program is shallowly embedded: Python strings are modelled as
lists of Unicode code points (`Str`), network and filesystem effects are
passed explicitly (the outcome of each HTTP attempt is a function
`Nat → Option α`, the set of files already present on disk is a
`List Str`), and every fallible operation is a total Lean function whose
result carries the success flag the Python code returns.
-/

namespace Scraper

/-- Python strings, modelled as lists of Unicode code points. -/
abbrev Str := List Char

/-- Python regex class `\w` restricted to the characters the scraper meets:
alphanumeric characters and the underscore. -/
def isWordChar (c : Char) : Bool := c.isAlphanum || c = '_'

/-- Characters kept by `re.sub(r"[^\w\s-]", "", s)`: word characters,
whitespace and the hyphen. -/
def keptBySanitize (c : Char) : Bool := isWordChar c || c.isWhitespace || c = '-'

/-- Embedding of `re.sub(r"[^\w\s-]", "", s)`: drop every character that is
not a word character, whitespace or a hyphen. -/
def pySubNonWord (s : Str) : Str := s.filter keptBySanitize

/-- Embedding of Python `str.strip()`: drop whitespace from both ends. -/
def pyStrip (s : Str) : Str :=
  ((s.dropWhile Char.isWhitespace).reverse.dropWhile Char.isWhitespace).reverse

/-- Worker for `splitOnChar`; `acc` holds the current piece reversed. -/
def splitOnCharGo (sep : Char) : Str → Str → List Str
  | [], acc => [acc.reverse]
  | c :: rest, acc =>
      if c = sep then acc.reverse :: splitOnCharGo sep rest []
      else splitOnCharGo sep rest (c :: acc)

/-- Embedding of Python `str.split(sep)` for a one-character separator.
Like in Python, the result is never empty: splitting the empty string
yields `[[]]`. -/
def splitOnChar (sep : Char) (s : Str) : List Str := splitOnCharGo sep s []

/- ### PageFetcher: `get_page_content` (src lines 49-62) -/

/-- Observable trace of one `get_page_content` call: how many times
`session.get` ran, which back-off sleeps were performed (in seconds, in
order), and the returned value (`none` models the Python `return None`). -/
structure FetchTrace (α : Type) where
  attemptsMade : Nat
  sleeps : List Nat
  result : Option α
deriving DecidableEq

/-- Loop body of `get_page_content`. `outcomes n` is the result of the
`n`-th `session.get` call (`none` models a raised `requests.RequestException`,
the only failure the source anticipates). `remaining` is the number of loop
iterations `for attempt in range(retries)` still to run, kept structural so
the kernel can evaluate the function; the wrapper `get_page_content`
instantiates it consistently with `attempt`. -/
def get_page_content_go {α : Type} (outcomes : Nat → Option α) (retries : Nat) :
    Nat → Nat → List Nat → FetchTrace α
  | 0, attempt, sleeps => ⟨attempt, sleeps.reverse, none⟩
  | remaining + 1, attempt, sleeps =>
      match outcomes attempt with
      | some r => ⟨attempt + 1, sleeps.reverse, some r⟩
      | none =>
          if attempt < retries - 1 then
            get_page_content_go outcomes retries remaining (attempt + 1)
              (2 ^ attempt :: sleeps)
          else ⟨attempt + 1, sleeps.reverse, none⟩

/-- Embedding of `get_page_content(url, retries)`: retry loop with
exponential back-off `time.sleep(2 ** attempt)` between failures, returning
`None` after the last failure. -/
def get_page_content {α : Type} (outcomes : Nat → Option α) (retries : Nat) :
    FetchTrace α :=
  get_page_content_go outcomes retries retries 0 []

/- ### Title parsing: `parse_card_title` (src lines 251-267) -/

/-- Embedding of `re.search(r"#(\w+)", title)`: scan left to right for a
`#` that is directly followed by at least one word character and return
that maximal run of word characters. -/
def findCardNumber : Str → Option Str
  | [] => none
  | c :: rest =>
      if c = '#' then
        match rest.takeWhile isWordChar with
        | [] => findCardNumber rest
        | d :: ds => some (d :: ds)
      else findCardNumber rest

/-- Embedding of `parse_card_title`: the name is the stripped text before
the first `·`, the number is the first `\w+` run after a `#` (defaulting to
`"0"`), and the name is finally cleaned by `re.sub(r"[^\w\s-]", "", ·)`
and stripped again. The `"Unknown"` arm mirrors `if parts else "Unknown"`
in the source. -/
def parse_card_title (title : Str) : Str × Str :=
  let parts := splitOnChar '·' title
  let pokemon_name :=
    match parts with
    | [] => "Unknown".data
    | p :: _ => pyStrip p
  let card_number :=
    match findCardNumber title with
    | some n => n
    | none => "0".data
  (pyStrip (pySubNonWord pokemon_name), card_number)

/- ### Supporting lemmas -/

theorem splitOnCharGo_head (sep : Char) :
    ∀ (s acc : Str), ∃ rest,
      splitOnCharGo sep s acc = (acc.reverse ++ s.takeWhile (fun c => c != sep)) :: rest := by
  intro s
  induction s with
  | nil => intro acc; exact ⟨[], by simp [splitOnCharGo]⟩
  | cons c cs ih =>
      intro acc
      by_cases h : c = sep
      · refine ⟨splitOnCharGo sep cs [], ?_⟩
        simp [splitOnCharGo, h, List.takeWhile]
      · obtain ⟨rest, hrest⟩ := ih (c :: acc)
        refine ⟨rest, ?_⟩
        have hbne : (c != sep) = true := by simp [h]
        simp only [splitOnCharGo, if_neg h, hrest, List.takeWhile, hbne]
        simp

theorem splitOnChar_ne_nil (sep : Char) (s : Str) : splitOnChar sep s ≠ [] := by
  obtain ⟨rest, h⟩ := splitOnCharGo_head sep s []
  simp [splitOnChar, h]

theorem splitOnChar_head (sep : Char) (s : Str) :
    ∃ rest, splitOnChar sep s = s.takeWhile (fun c => c != sep) :: rest := by
  obtain ⟨rest, h⟩ := splitOnCharGo_head sep s []
  exact ⟨rest, by simpa [splitOnChar] using h⟩

theorem findCardNumber_eq_none_of_no_hash (title : Str) (h : '#' ∉ title) :
    findCardNumber title = none := by
  induction title with
  | nil => rfl
  | cons c cs ih =>
      simp only [List.mem_cons, not_or] at h
      simp only [findCardNumber]
      rw [if_neg (Ne.symm h.1)]
      exact ih h.2

theorem findCardNumber_append (pre rest : Str) (hpre : '#' ∉ pre)
    (hrun : rest.takeWhile isWordChar ≠ []) :
    findCardNumber (pre ++ '#' :: rest) = some (rest.takeWhile isWordChar) := by
  induction pre with
  | nil =>
      rw [List.nil_append]
      cases h : rest.takeWhile isWordChar with
      | nil => exact absurd h hrun
      | cons d ds => simp [findCardNumber, h]
  | cons c cs ih =>
      simp only [List.mem_cons, not_or] at hpre
      rw [List.cons_append]
      simp only [findCardNumber]
      rw [if_neg (Ne.symm hpre.1)]
      exact ih hpre.2

/-- The leftmost-match side condition of `re.search(r"#(\w+)", title)`:
every `#` that starts strictly before position `n` is not followed by a
word character, so no match can begin there. -/
def noEarlyMarker (title : Str) (n : Nat) : Prop :=
  ∀ p2 r2, title = p2 ++ '#' :: r2 → p2.length < n →
    r2.takeWhile isWordChar = []

/-- Decidable sufficient condition for `noEarlyMarker`, checking the
character at each position below `n`. -/
theorem noEarlyMarker_of_check (title : Str) (n : Nat)
    (h : ∀ i, i < n → title.getD i ' ' = '#' →
        (title.drop (i + 1)).takeWhile isWordChar = []) :
    noEarlyMarker title n := by
  intro p2 r2 heq hlen
  have hget : title.getD p2.length ' ' = '#' := by
    rw [heq, List.getD_eq_getElem?_getD,
      List.getElem?_append_right (Nat.le_refl p2.length)]
    simp
  have hdrop : title.drop (p2.length + 1) = r2 := by
    rw [heq, List.append_cons]
    have hl : p2.length + 1 = (p2 ++ ['#']).length := by simp
    rw [hl, List.drop_left]
  have := h p2.length hlen hget
  rwa [hdrop] at this

theorem findCardNumber_eq_none_of_noMarker : ∀ (title : Str),
    (∀ pre rest, title = pre ++ '#' :: rest →
      rest.takeWhile isWordChar = []) →
    findCardNumber title = none := by
  intro title
  induction title with
  | nil => intro _; rfl
  | cons c cs ih =>
      intro h
      rw [findCardNumber]
      by_cases hc : c = '#'
      · rw [if_pos hc]
        have h0 : cs.takeWhile isWordChar = [] := h [] cs (by rw [hc]; rfl)
        simp only [h0]
        apply ih
        intro pre rest heq
        exact h (c :: pre) rest (by rw [heq]; rfl)
      · rw [if_neg hc]
        apply ih
        intro pre rest heq
        exact h (c :: pre) rest (by rw [heq]; rfl)

theorem findCardNumber_first_marker : ∀ (pre title rest : Str),
    title = pre ++ '#' :: rest →
    rest.takeWhile isWordChar ≠ [] →
    noEarlyMarker title pre.length →
    findCardNumber title = some (rest.takeWhile isWordChar) := by
  intro pre
  induction pre with
  | nil =>
      intro title rest heq hrun _
      subst heq
      rw [List.nil_append]
      cases h : rest.takeWhile isWordChar with
      | nil => exact absurd h hrun
      | cons d ds => simp [findCardNumber, h]
  | cons c ps ih =>
      intro title rest heq hrun hearly
      subst heq
      rw [List.cons_append, findCardNumber]
      by_cases hc : c = '#'
      · rw [if_pos hc]
        have h0 : (ps ++ '#' :: rest).takeWhile isWordChar = [] := by
          apply hearly [] (ps ++ '#' :: rest) (by rw [hc]; rfl)
          simp
        simp only [h0]
        apply ih (ps ++ '#' :: rest) rest rfl hrun
        intro p2 r2 heq2 hlen
        apply hearly (c :: p2) r2 (by simp [heq2])
        simpa using Nat.succ_lt_succ hlen
      · rw [if_neg hc]
        apply ih (ps ++ '#' :: rest) rest rfl hrun
        intro p2 r2 heq2 hlen
        apply hearly (c :: p2) r2 (by simp [heq2])
        simpa using Nat.succ_lt_succ hlen

/- ### Collection pages: articles, cards and sets -/

/-- An `img` element; `src` is `none` when the attribute is absent
(`img_tag.get("src", "")` then yields the empty string). -/
structure ImgTag where
  src : Option Str
deriving DecidableEq

/-- An `a.card-image-link` element as the scraper reads it: optional
`title` and `href` attributes and the optional nested `img.card-image`. -/
structure CardLink where
  title : Option Str
  href : Option Str
  img : Option ImgTag
deriving DecidableEq

/-- An `article.type-pkmn_card.entry` container; `link` is the result of
`article.find("a", class_="card-image-link")`. -/
structure Article where
  link : Option CardLink
deriving DecidableEq

/-- A set link dictionary `{url, name, code}` as built by
`extract_set_links`. -/
structure SetInfo where
  url : Str
  name : Str
  code : Str
deriving DecidableEq

/-- A card dictionary as built by `get_card_images_from_set`. -/
structure CardInfo where
  pokemon_name : Str
  card_title : Str
  card_number : Str
  set_name : Str
  set_code : Str
  image_url : Str
  card_page_url : Str
deriving DecidableEq

/-- Loop of `count_cards_in_set` (src lines 121-142): count the articles
that have a card-image link, a nested image tag and a nonempty image
source. -/
def countValidCards : List Article → Nat
  | [] => 0
  | a :: rest =>
      match a.link with
      | none => countValidCards rest
      | some cl =>
          match cl.img with
          | none => countValidCards rest
          | some img =>
              if img.src.getD [] = [] then countValidCards rest
              else countValidCards rest + 1

/-- Embedding of `count_cards_in_set` (src lines 109-142); the page is
`none` when `get_page_content` failed, in which case the count is 0.  The
function returns a bare `Nat` and retains no parsed card descriptors. -/
def count_cards_in_set : Option (List Article) → Nat
  | none => 0
  | some articles => countValidCards articles

/-- Loop of `get_card_images_from_set` (src lines 209-246): build a card
dictionary for every article that has a card-image link, a nested image
tag and a nonempty image source. -/
def collectCards (set_info : SetInfo) : List Article → List CardInfo
  | [] => []
  | a :: rest =>
      match a.link with
      | none => collectCards set_info rest
      | some cl =>
          let card_title := cl.title.getD []
          let card_page_url := cl.href.getD []
          match cl.img with
          | none => collectCards set_info rest
          | some img =>
              let img_url := img.src.getD []
              if img_url = [] then collectCards set_info rest
              else
                let parsed := parse_card_title card_title
                { pokemon_name := parsed.1, card_title := card_title,
                  card_number := parsed.2, set_name := set_info.name,
                  set_code := set_info.code, image_url := img_url,
                  card_page_url := card_page_url } :: collectCards set_info rest

/-- Embedding of `get_card_images_from_set` (src lines 195-249); the page
is `none` when `get_page_content` failed, in which case no cards are
returned. -/
def get_card_images_from_set (set_info : SetInfo) :
    Option (List Article) → List CardInfo
  | none => []
  | some articles => collectCards set_info articles

/- ### Pre-count phase: `count_total_cards` and the abort decision -/

/-- Embedding of `count_total_cards` (src lines 144-193). `countOf s` is
the result of `count_cards_in_set` on the page of set `s`, with `none`
modelling an exception raised while counting that set — the `except`
branch records `(set_info, 0)` and continues.  Returns the total and the
per-set counts; with no sets at all it returns `(0, [])` early. -/
def count_total_cards (sets : List SetInfo) (countOf : SetInfo → Option Nat) :
    Nat × List (SetInfo × Nat) :=
  match sets with
  | [] => (0, [])
  | _ :: _ =>
      let set_counts := sets.map (fun s => (s, (countOf s).getD 0))
      ((set_counts.map (fun p => p.2)).sum, set_counts)

/-- Outcome of the pre-count phase of `scrape_all_cards`
(src lines 397-402): either the early `return` or the download phase with
the per-set counts. -/
inductive Phase where
  | aborted : Phase
  | proceeding : List (SetInfo × Nat) → Phase
deriving DecidableEq

/-- Embedding of the pre-count decision in `scrape_all_cards`
(src lines 397-402, with `skip_count=False`): abort when
`total_cards_expected == 0`, otherwise proceed with the counted sets. -/
def scrape_precount_phase (sets : List SetInfo) (countOf : SetInfo → Option Nat) :
    Phase :=
  let r := count_total_cards sets countOf
  if r.1 = 0 then Phase.aborted else Phase.proceeding r.2

/- ### Claim C4 -/

/-- Claim C4: for every collection page, `count_cards_in_set` returns
exactly the length of the list produced by `get_card_images_from_set` on
the same page — both apply the same validity filter (an article with a
card-image link, an image tag and a nonempty image source), and the
counter (returning a bare `Nat`) retains no parsed descriptors. -/
theorem C4_count_eq_length (set_info : SetInfo) (page : Option (List Article)) :
    count_cards_in_set page = (get_card_images_from_set set_info page).length := by
  cases page with
  | none => rfl
  | some articles =>
      show countValidCards articles = (collectCards set_info articles).length
      induction articles with
      | nil => rfl
      | cons a rest ih =>
          cases hl : a.link with
          | none => simp [countValidCards, collectCards, hl, ih]
          | some cl =>
              cases hi : cl.img with
              | none => simp [countValidCards, collectCards, hl, hi, ih]
              | some img =>
                  by_cases hs : img.src.getD [] = []
                  · simp [countValidCards, collectCards, hl, hi, hs, ih]
                  · simp [countValidCards, collectCards, hl, hi, hs, ih]

/- ### Claim C5 -/

/-- Claim C5 counterexample: one collection is discovered, its count is 0
(no failure anywhere), and the run is aborted before the download phase —
refuting the claim that the pre-count run aborts only when zero
collections are discovered. -/
theorem C5_counterexample :
    ([(⟨"https://pkmncards.com/set/base-set/".data, "Base Set (BS)".data,
        "BS".data⟩ : SetInfo)] ≠ ([] : List SetInfo)) ∧
    scrape_precount_phase
        [⟨"https://pkmncards.com/set/base-set/".data, "Base Set (BS)".data,
          "BS".data⟩]
        (fun _ => some 0) = Phase.aborted := by
  exact ⟨by simp, by decide⟩

/-- Claim C5 (amended): with the pre-count phase enabled, the run is
aborted before the download phase exactly when the pre-count total is 0 —
in particular when zero collections are discovered, but also when every
discovered collection counts 0 items.  When the total is nonzero the run
proceeds to the per-collection download phase, and a per-collection count
failure contributes the pair `(set, 0)` to the set list that is still
downloaded. -/
theorem C5_precount_abort (sets : List SetInfo) (countOf : SetInfo → Option Nat) :
    (scrape_precount_phase sets countOf = Phase.aborted ↔
      (count_total_cards sets countOf).1 = 0) ∧
    (sets = [] → scrape_precount_phase sets countOf = Phase.aborted) ∧
    ((count_total_cards sets countOf).1 ≠ 0 →
      scrape_precount_phase sets countOf =
        Phase.proceeding (count_total_cards sets countOf).2 ∧
      ∀ s ∈ sets, countOf s = none →
        (s, 0) ∈ (count_total_cards sets countOf).2) := by
  refine ⟨?_, ?_, ?_⟩
  · by_cases h : (count_total_cards sets countOf).1 = 0 <;>
      simp [scrape_precount_phase, h]
  · intro h
    subst h
    simp [scrape_precount_phase, count_total_cards]
  · intro h
    refine ⟨by simp [scrape_precount_phase, h], ?_⟩
    intro s hmem hnone
    cases sets with
    | nil => cases hmem
    | cons s0 rest =>
        show (s, 0) ∈ (s0 :: rest).map (fun s => (s, (countOf s).getD 0))
        exact List.mem_map.mpr ⟨s, hmem, by simp [hnone]⟩

/-- Witness for C5 (amended) at a concrete input: two collections, the
first counting 3 cards and the second failing its count; the run proceeds
with the failed collection paired with 0. -/
theorem C5_precount_abort_witness :
    scrape_precount_phase
        [⟨"https://pkmncards.com/set/jungle/".data, "Jungle (JU)".data, "JU".data⟩,
         ⟨"https://pkmncards.com/set/fossil/".data, "Fossil (FO)".data, "FO".data⟩]
        (fun s => if s.code = "JU".data then some 3 else none) =
      Phase.proceeding
        [(⟨"https://pkmncards.com/set/jungle/".data, "Jungle (JU)".data,
           "JU".data⟩, 3),
         (⟨"https://pkmncards.com/set/fossil/".data, "Fossil (FO)".data,
           "FO".data⟩, 0)] := by
  have h := (C5_precount_abort
      [⟨"https://pkmncards.com/set/jungle/".data, "Jungle (JU)".data, "JU".data⟩,
       ⟨"https://pkmncards.com/set/fossil/".data, "Fossil (FO)".data, "FO".data⟩]
      (fun s => if s.code = "JU".data then some 3 else none)).2.2 (by decide)
  rw [h.1]
  decide

/- ### CatalogIndexer: `extract_set_links` / `extract_set_code` (src 64-107) -/

/-- Anchored tail of the regex `\(([^)]+)\)$` after an opening paren has
been consumed: the remainder must be a nonempty run of characters other
than `)` followed by a single final `)`; the run is the captured group. -/
def tailParenBody (rest : Str) : Option Str :=
  if rest.getLast? = some ')' ∧ rest.dropLast ≠ [] ∧ ')' ∉ rest.dropLast
  then some rest.dropLast else none

/-- Embedding of `re.search(r"\(([^)]+)\)$", s)`: try every position left
to right (the leftmost match wins, as in Python) and return the captured
group. -/
def parenSearch : Str → Option Str
  | [] => none
  | c :: rest =>
      if c = '(' then
        match tailParenBody rest with
        | some body => some body
        | none => parenSearch rest
      else parenSearch rest

/-- Embedding of `extract_set_code` (src lines 101-107): the parenthesized
token at the end of the stripped set name, or `"UNKNOWN"`. -/
def extract_set_code (set_name : Str) : Str :=
  match parenSearch (pyStrip set_name) with
  | some code => code
  | none => "UNKNOWN".data

/-- An anchor element of the root page: `href` attribute (always present
because of `find_all("a", href=True)`, possibly empty) and its raw
`get_text()` content. -/
structure Anchor where
  href : Str
  text : Str
deriving DecidableEq

/-- The collection-URL pattern of the filter in `extract_set_links`. -/
def setUrlPre : Str := "https://pkmncards.com/set/".data

/-- One anchor of the loop body of `extract_set_links` (src lines 77-88):
keep the anchor when the href is nonempty and has the collection prefix
and the stripped text is nonempty and contains both parens. -/
def setLinkOf (a : Anchor) : Option SetInfo :=
  let text := pyStrip a.text
  if a.href ≠ [] ∧ setUrlPre.isPrefixOf a.href ∧ text ≠ [] ∧
      '(' ∈ text ∧ ')' ∈ text
  then some ⟨a.href, text, extract_set_code text⟩
  else none

/-- Deduplication loop of `extract_set_links` (src lines 90-96): keep the
first occurrence of every URL, in order. -/
def dedupLoop : List SetInfo → List Str → List SetInfo
  | [], _ => []
  | l :: ls, seen =>
      if l.url ∈ seen then dedupLoop ls seen
      else l :: dedupLoop ls (l.url :: seen)

/-- Embedding of `extract_set_links` (src lines 64-99); the page is `none`
when the root fetch failed, in which case the result is empty. -/
def extract_set_links : Option (List Anchor) → List SetInfo
  | none => []
  | some anchors => dedupLoop (anchors.filterMap setLinkOf) []

/-- Specification-side description of a trailing parenthesized token:
`body` is nonempty, free of `)`, and `s` ends in `(body)`. -/
def trailingTokenSpec (s body : Str) : Prop :=
  ∃ pre, s = pre ++ '(' :: (body ++ [')']) ∧ body ≠ [] ∧ ')' ∉ body

theorem tailParenBody_sound {rest body : Str} (h : tailParenBody rest = some body) :
    rest = body ++ [')'] ∧ body ≠ [] ∧ ')' ∉ body := by
  unfold tailParenBody at h
  split at h
  case isTrue hc =>
    obtain ⟨h1, h2, h3⟩ := hc
    injection h with h4
    subst h4
    have hne : rest ≠ [] := by
      intro he; rw [he] at h1; cases h1
    refine ⟨?_, h2, h3⟩
    have h5 := List.getLast?_eq_getLast rest hne
    rw [h5] at h1
    injection h1 with h6
    rw [← h6]
    exact (List.dropLast_append_getLast hne).symm
  case isFalse => cases h

theorem tailParenBody_concat (body : Str) (h1 : body ≠ []) (h2 : ')' ∉ body) :
    tailParenBody (body ++ [')']) = some body := by
  unfold tailParenBody
  rw [if_pos]
  · rw [List.dropLast_concat]
  · refine ⟨?_, ?_, ?_⟩ <;>
      simp [List.getLast?_concat, List.dropLast_concat, h1, h2]

theorem parenSearch_sound : ∀ (s body : Str), parenSearch s = some body →
    trailingTokenSpec s body := by
  intro s
  induction s with
  | nil => intro body h; cases h
  | cons c rest ih =>
      intro body h
      rw [parenSearch] at h
      by_cases hc : c = '('
      · rw [if_pos hc] at h
        cases ht : tailParenBody rest with
        | some b2 =>
            simp only [ht] at h
            injection h with hb
            subst hb
            obtain ⟨h1, h2, h3⟩ := tailParenBody_sound ht
            exact ⟨[], by rw [hc, h1]; rfl, h2, h3⟩
        | none =>
            simp only [ht] at h
            obtain ⟨pre, hp, h2, h3⟩ := ih body h
            exact ⟨c :: pre, by rw [hp]; rfl, h2, h3⟩
      · rw [if_neg hc] at h
        obtain ⟨pre, hp, h2, h3⟩ := ih body h
        exact ⟨c :: pre, by rw [hp]; rfl, h2, h3⟩

theorem parenSearch_complete : ∀ (pre body : Str), body ≠ [] → ')' ∉ body →
    (parenSearch (pre ++ '(' :: (body ++ [')']))).isSome = true := by
  intro pre
  induction pre with
  | nil =>
      intro body h1 h2
      rw [List.nil_append, parenSearch, if_pos rfl,
        tailParenBody_concat body h1 h2]
      rfl
  | cons c cs ih =>
      intro body h1 h2
      rw [List.cons_append, parenSearch]
      by_cases hc : c = '('
      · rw [if_pos hc]
        cases ht : tailParenBody (cs ++ '(' :: (body ++ [')'])) with
        | some b2 => rfl
        | none => exact ih body h1 h2
      · rw [if_neg hc]
        exact ih body h1 h2

/-- The code extracted by `extract_set_code` is the trailing parenthesized
token of the stripped name when one exists, and `"UNKNOWN"` when none
does. -/
theorem extract_set_code_spec (name : Str) :
    ((∃ body, trailingTokenSpec (pyStrip name) body) →
      trailingTokenSpec (pyStrip name) (extract_set_code name)) ∧
    ((¬ ∃ body, trailingTokenSpec (pyStrip name) body) →
      extract_set_code name = "UNKNOWN".data) := by
  constructor
  · rintro ⟨body, pre, hp, h1, h2⟩
    cases heq : parenSearch (pyStrip name) with
    | some b2 =>
        have := parenSearch_sound _ _ heq
        simpa [extract_set_code, heq] using this
    | none =>
        have := parenSearch_complete pre body h1 h2
        rw [← hp, heq] at this
        cases this
  · intro hno
    cases heq : parenSearch (pyStrip name) with
    | some b2 => exact absurd ⟨b2, parenSearch_sound _ _ heq⟩ hno
    | none => simp [extract_set_code, heq]

theorem setLinkOf_inv {a : Anchor} {l : SetInfo} (h : setLinkOf a = some l) :
    l.url = a.href ∧ l.name = pyStrip a.text ∧
    l.code = extract_set_code (pyStrip a.text) ∧
    setUrlPre.isPrefixOf a.href = true := by
  simp only [setLinkOf] at h
  split at h
  case isTrue hcond =>
    injection h with h2
    subst h2
    exact ⟨rfl, rfl, rfl, hcond.2.1⟩
  case isFalse => cases h

theorem dedupLoop_mem : ∀ {ls : List SetInfo} {seen : List Str} {x : SetInfo},
    x ∈ dedupLoop ls seen → x ∈ ls ∧ x.url ∉ seen := by
  intro ls
  induction ls with
  | nil => intro seen x h; cases h
  | cons l rest ih =>
      intro seen x h
      by_cases hs : l.url ∈ seen
      · rw [dedupLoop, if_pos hs] at h
        obtain ⟨h3, h4⟩ := ih h
        exact ⟨List.mem_cons_of_mem _ h3, h4⟩
      · rw [dedupLoop, if_neg hs] at h
        rcases List.mem_cons.mp h with rfl | h2
        · exact ⟨List.mem_cons_self _ _, hs⟩
        · obtain ⟨h3, h4⟩ := ih h2
          simp only [List.mem_cons, not_or] at h4
          exact ⟨List.mem_cons_of_mem _ h3, h4.2⟩

theorem dedupLoop_sublist : ∀ (ls : List SetInfo) (seen : List Str),
    List.Sublist (dedupLoop ls seen) ls := by
  intro ls
  induction ls with
  | nil => intro seen; simp [dedupLoop]
  | cons l rest ih =>
      intro seen
      by_cases hs : l.url ∈ seen
      · rw [dedupLoop, if_pos hs]; exact (ih seen).cons l
      · rw [dedupLoop, if_neg hs]; exact (ih _).cons₂ l

theorem dedupLoop_pairwise : ∀ (ls : List SetInfo) (seen : List Str),
    (dedupLoop ls seen).Pairwise (fun x y => x.url ≠ y.url) := by
  intro ls
  induction ls with
  | nil => intro seen; simp [dedupLoop]
  | cons l rest ih =>
      intro seen
      by_cases hs : l.url ∈ seen
      · rw [dedupLoop, if_pos hs]; exact ih seen
      · rw [dedupLoop, if_neg hs]
        refine List.Pairwise.cons ?_ (ih _)
        intro y hy
        have h4 := (dedupLoop_mem hy).2
        simp only [List.mem_cons, not_or] at h4
        exact fun h => h4.1 h.symm

theorem dedupLoop_covers : ∀ {ls : List SetInfo} {seen : List Str} {x : SetInfo},
    x ∈ ls → x.url ∉ seen → ∃ y ∈ dedupLoop ls seen, y.url = x.url := by
  intro ls
  induction ls with
  | nil => intro seen x hx; cases hx
  | cons l rest ih =>
      intro seen x hx hseen
      by_cases hs : l.url ∈ seen
      · rw [dedupLoop, if_pos hs]
        rcases List.mem_cons.mp hx with rfl | hx2
        · exact absurd hs hseen
        · exact ih hx2 hseen
      · rw [dedupLoop, if_neg hs]
        rcases List.mem_cons.mp hx with rfl | hx2
        · exact ⟨x, List.mem_cons_self _ _, rfl⟩
        · by_cases hurl : x.url = l.url
          · exact ⟨l, List.mem_cons_self _ _, hurl.symm⟩
          · have hnot : x.url ∉ l.url :: seen := by
              intro hmem
              rcases List.mem_cons.mp hmem with h | h
              · exact hurl h
              · exact hseen h
            obtain ⟨y, hy, hyu⟩ := ih hx2 hnot
            exact ⟨y, List.mem_cons_of_mem _ hy, hyu⟩

theorem dedupLoop_first : ∀ {ls : List SetInfo} {seen : List Str} {y : SetInfo},
    y ∈ dedupLoop ls seen →
    ls.find? (fun z => z.url == y.url) = some y := by
  intro ls
  induction ls with
  | nil => intro seen y hy; cases hy
  | cons l rest ih =>
      intro seen y hy
      by_cases hs : l.url ∈ seen
      · rw [dedupLoop, if_pos hs] at hy
        have h2 := (dedupLoop_mem hy).2
        have hne : (l.url == y.url) = false := by
          simp only [beq_eq_false_iff_ne, ne_eq]
          intro heq; exact h2 (heq ▸ hs)
        simp only [List.find?, hne]
        exact ih hy
      · rw [dedupLoop, if_neg hs] at hy
        rcases List.mem_cons.mp hy with rfl | hy2
        · simp only [List.find?, beq_self_eq_true]
        · have h2 := (dedupLoop_mem hy2).2
          simp only [List.mem_cons, not_or] at h2
          have hne : (l.url == y.url) = false := by
            simp only [beq_eq_false_iff_ne, ne_eq]
            exact fun heq => h2.1 heq.symm
          simp only [List.find?, hne]
          exact ih hy2

/- ### Claim C7 -/

/-- Claim C7: every set link produced by `extract_set_links` has a URL
with the collection prefix `https://pkmncards.com/set/` and a code equal
to the nonempty token inside the trailing parentheses of the (stripped)
display name when such a token exists, or `"UNKNOWN"` when it does not;
and the returned sequence is the document-order subsequence of the
filtered anchors, deduplicated by URL with the first occurrence kept. -/
theorem C7_extract_set_links (anchors : List Anchor) :
    (∀ l ∈ extract_set_links (some anchors),
      setUrlPre.isPrefixOf l.url = true ∧
      ((∃ body, trailingTokenSpec (pyStrip l.name) body) →
        trailingTokenSpec (pyStrip l.name) l.code) ∧
      ((¬ ∃ body, trailingTokenSpec (pyStrip l.name) body) →
        l.code = "UNKNOWN".data)) ∧
    List.Sublist (extract_set_links (some anchors)) (anchors.filterMap setLinkOf) ∧
    (extract_set_links (some anchors)).Pairwise (fun x y => x.url ≠ y.url) ∧
    (∀ x ∈ anchors.filterMap setLinkOf,
      ∃ y ∈ extract_set_links (some anchors), y.url = x.url) ∧
    (∀ y ∈ extract_set_links (some anchors),
      (anchors.filterMap setLinkOf).find? (fun z => z.url == y.url) = some y) := by
  refine ⟨?_, dedupLoop_sublist _ _, dedupLoop_pairwise _ _, ?_, ?_⟩
  · intro l hl
    have hmem := (dedupLoop_mem hl).1
    obtain ⟨a, _, hsome⟩ := List.mem_filterMap.mp hmem
    obtain ⟨hu, hn, hc, hpre⟩ := setLinkOf_inv hsome
    have hspec := extract_set_code_spec l.name
    rw [← hn] at hc
    rw [← hc] at hspec
    exact ⟨hu ▸ hpre, hspec.1, hspec.2⟩
  · intro x hx
    exact dedupLoop_covers hx (by simp)
  · intro y hy
    exact dedupLoop_first hy

/-- Witness for C7 at a concrete root page with a duplicated anchor: the
first occurrence is kept, its URL has the collection prefix, and its code
`"BS"` is the trailing parenthesized token of `"Base Set (BS)"`. -/
theorem C7_extract_set_links_witness :
    setUrlPre.isPrefixOf "https://pkmncards.com/set/base-set/".data = true ∧
    trailingTokenSpec (pyStrip "Base Set (BS)".data) "BS".data := by
  have h := C7_extract_set_links
    [⟨"https://pkmncards.com/set/base-set/".data, "Base Set (BS)".data⟩,
     ⟨"https://pkmncards.com/set/base-set/".data, "Base Set (BS)".data⟩]
  have hl := h.1
    ⟨"https://pkmncards.com/set/base-set/".data, "Base Set (BS)".data, "BS".data⟩
    (by decide)
  exact ⟨hl.1, hl.2.1 ⟨"BS".data, "Base Set ".data, by decide, by decide, by decide⟩⟩

/- ### Claim C1 -/

/-- Claim C1: for every URL, `get_page_content` makes at most 3 request
attempts; if the first two attempts fail and the third succeeds it returns
the successful response after exactly 3 attempts, sleeping 1 second after
the first failure and 2 seconds after the second; if all 3 attempts fail it
returns `none` (a reported failure, never an exception propagated to the
caller — the function is total). -/
theorem C1_get_page_content_retries {α : Type} (outcomes : Nat → Option α) :
    (get_page_content outcomes 3).attemptsMade ≤ 3 ∧
    (outcomes 0 = none → outcomes 1 = none →
      (∀ r, outcomes 2 = some r →
          get_page_content outcomes 3 = ⟨3, [1, 2], some r⟩) ∧
      (outcomes 2 = none → get_page_content outcomes 3 = ⟨3, [1, 2], none⟩)) := by
  constructor
  · cases h0 : outcomes 0 <;> cases h1 : outcomes 1 <;> cases h2 : outcomes 2 <;>
      simp [get_page_content, get_page_content_go, h0, h1, h2]
  · intro h0 h1
    constructor
    · intro r h2
      simp [get_page_content, get_page_content_go, h0, h1, h2]
    · intro h2
      simp [get_page_content, get_page_content_go, h0, h1, h2]

/-- Witness for C1 at a concrete outcome sequence: the first two attempts
fail and the third returns the page `0`. -/
theorem C1_get_page_content_retries_witness :
    get_page_content (fun n => if n = 2 then some 0 else none) 3 =
      ⟨3, [1, 2], some (0 : Nat)⟩ :=
  ((C1_get_page_content_retries (fun n => if n = 2 then some 0 else none)).2
      rfl rfl).1 0 rfl

/- ### Claim C6 -/

/-- Claim C6 counterexample: the title `"Pikachu"` is unparseable in the
claim's sense (it contains neither the `·` separator nor a `#` number
marker), yet `parse_card_title` returns `"Pikachu"` as the item name, not
the sentinel `"Unknown"`. -/
theorem C6_counterexample :
    ('·' ∉ "Pikachu".data ∧ '#' ∉ "Pikachu".data) ∧
    parse_card_title "Pikachu".data = ("Pikachu".data, "0".data) ∧
    "Pikachu".data ≠ "Unknown".data := by decide

/-- Claim C6 (amended): `parse_card_title` returns as item name the
sanitized text before the first `·` separator — when no separator occurs
this is the whole title, and the `"Unknown"` sentinel is never produced
as a default because Python `str.split` always yields at least one
piece — and as item number the first run of word characters following a
`#` marker, defaulting to `"0"` whenever the title has no number marker
(no `#` followed by a word character): `noEarlyMarker title title.length`
says exactly that no position of the title starts a match of `#(\w+)`,
and when a match exists the leftmost one is returned. -/
theorem C6_parse_card_title (title : Str) :
    (parse_card_title title).1 =
      pyStrip (pySubNonWord (pyStrip (title.takeWhile (fun c => c != '·')))) ∧
    (noEarlyMarker title title.length → (parse_card_title title).2 = "0".data) ∧
    (∀ pre rest, title = pre ++ '#' :: rest →
      rest.takeWhile isWordChar ≠ [] →
      noEarlyMarker title pre.length →
      (parse_card_title title).2 = rest.takeWhile isWordChar) := by
  refine ⟨?_, ?_, ?_⟩
  · obtain ⟨rest, h⟩ := splitOnChar_head '·' title
    simp [parse_card_title, h]
  · intro h
    have hnone : findCardNumber title = none := by
      apply findCardNumber_eq_none_of_noMarker
      intro pre rest heq
      apply h pre rest heq
      rw [heq]
      simp only [List.length_append, List.length_cons]
      omega
    rw [parse_card_title]
    simp [hnone]
  · intro pre rest heq hrun hearly
    rw [parse_card_title]
    simp [findCardNumber_first_marker pre title rest heq hrun hearly]

/-- Witness for C6 at three concrete titles: `"Pika #"` has a `#` but no
word character after it, so the number defaults to `"0"`; in
`"Foo # bar #12"` the first `#` carries no run and the second yields
`"12"`; and the title from the source comment parses to the name
`"Deoxys"`. -/
theorem C6_parse_card_title_witness :
    (parse_card_title "Pika #".data).2 = "0".data ∧
    (parse_card_title "Foo # bar #12".data).2 = "12".data ∧
    (parse_card_title "Deoxys · POP Series 4 (P4) #2".data).1 = "Deoxys".data := by
  refine ⟨?_, ?_, ?_⟩
  · exact (C6_parse_card_title "Pika #".data).2.1
      (noEarlyMarker_of_check _ _ (by decide))
  · rw [(C6_parse_card_title "Foo # bar #12".data).2.2
      "Foo # bar ".data "12".data (by decide) (by decide)
      (noEarlyMarker_of_check _ _ (by decide))]
    decide
  · rw [(C6_parse_card_title "Deoxys · POP Series 4 (P4) #2".data).1]
    decide

/- ### Decimal rendering of the collision counter -/

/-- The decimal digit character for `d < 10`. -/
def digitChar (d : Nat) : Char := Char.ofNat (48 + d)

/-- Fuel-driven body of `natToDec`; any fuel above `n` yields the standard
decimal numeral of `n`. -/
def natToDecGo : Nat → Nat → Str
  | 0, _ => []
  | fuel + 1, n =>
      if n < 10 then [digitChar n]
      else natToDecGo fuel (n / 10) ++ [digitChar (n % 10)]

/-- Embedding of Python `str(n)` for a natural number. -/
def natToDec (n : Nat) : Str := natToDecGo (n + 1) n

/-- Decimal decoding, a left inverse of `natToDec`. -/
def decValue (s : Str) : Nat :=
  s.foldl (fun acc c => acc * 10 + (c.toNat - 48)) 0

theorem digitChar_toNat (d : Nat) (h : d < 10) : (digitChar d).toNat = 48 + d := by
  interval_cases d <;> rfl

theorem decValue_natToDecGo : ∀ (fuel n : Nat), n < fuel →
    decValue (natToDecGo fuel n) = n := by
  intro fuel
  induction fuel with
  | zero => intro n h; omega
  | succ f ih =>
      intro n h
      rw [natToDecGo]
      by_cases h10 : n < 10
      · rw [if_pos h10]
        simp [decValue, digitChar_toNat n h10]
      · rw [if_neg h10]
        have hlt : n / 10 < n := Nat.div_lt_self (by omega) (by omega)
        have hdiv : n / 10 < f := by omega
        unfold decValue
        rw [List.foldl_append]
        have hrec := ih (n / 10) hdiv
        unfold decValue at hrec
        rw [hrec]
        simp only [List.foldl_cons, List.foldl_nil]
        rw [digitChar_toNat (n % 10) (Nat.mod_lt n (by omega))]
        omega

theorem natToDec_inj {a b : Nat} (h : natToDec a = natToDec b) : a = b := by
  have ha := decValue_natToDecGo (a + 1) a (by omega)
  have hb := decValue_natToDecGo (b + 1) b (by omega)
  unfold natToDec at h
  rw [← ha, ← hb, h]

/- ### DownloadEngine: `download_image` (src lines 269-332) -/

/-- The candidate filename `{stem}_{counter}{ext}` built by the collision
loop (src line 292). -/
def candName (stem ext : Str) (counter : Nat) : Str :=
  stem ++ '_' :: (natToDec counter ++ ext)

theorem candName_inj (stem ext : Str) {a b : Nat}
    (h : candName stem ext a = candName stem ext b) : a = b := by
  unfold candName at h
  have h1 := List.append_cancel_left h
  injection h1 with _ h2
  exact natToDec_inj (List.append_cancel_right h2)

theorem exists_fresh_cand (fs : List Str) (stem ext : Str) :
    ∃ j, j < fs.length + 1 ∧ candName stem ext (1 + j) ∉ fs := by
  by_contra hno
  push_neg at hno
  have hinj : Function.Injective (fun j => candName stem ext (1 + j)) := by
    intro a b hab
    have := candName_inj stem ext hab
    omega
  have hnodup : ((List.range (fs.length + 1)).map
      (fun j => candName stem ext (1 + j))).Nodup :=
    (List.nodup_range _).map hinj
  have hsub : ((List.range (fs.length + 1)).map
      (fun j => candName stem ext (1 + j))).toFinset ⊆ fs.toFinset := by
    intro x hx
    rw [List.mem_toFinset] at hx ⊢
    obtain ⟨j, hj, rfl⟩ := List.mem_map.mp hx
    exact hno j (List.mem_range.mp hj)
  have hcard1 := List.toFinset_card_of_nodup hnodup
  have hcard2 := List.toFinset_card_le fs
  have hcard3 := Finset.card_le_card hsub
  simp only [List.length_map, List.length_range] at hcard1
  omega

/-- Collision loop of `download_image` (src lines 287-293): starting at
counter 1, try `{stem}_{counter}{ext}` until a name not on disk is found.
`fuel` bounds the iterations; `fs.length + 1` tries always suffice. -/
def resolveLoop (fs : List Str) (stem ext : Str) : Nat → Nat → Str
  | 0, counter => candName stem ext counter
  | fuel + 1, counter =>
      if candName stem ext counter ∈ fs then
        resolveLoop fs stem ext fuel (counter + 1)
      else candName stem ext counter

/-- Embedding of the duplicate-filename handling of `download_image`
(src lines 285-293): keep the base name when it is free, otherwise the
first suffixed candidate that is free. -/
def resolveFilename (fs : List Str) (stem ext : Str) : Str :=
  if stem ++ ext ∈ fs then resolveLoop fs stem ext (fs.length + 1) 1
  else stem ++ ext

theorem resolveLoop_spec (fs : List Str) (stem ext : Str) :
    ∀ (fuel counter : Nat),
    (∃ j, j < fuel ∧ candName stem ext (counter + j) ∉ fs) →
    ∃ k, resolveLoop fs stem ext fuel counter = candName stem ext (counter + k) ∧
      candName stem ext (counter + k) ∉ fs ∧
      ∀ j, j < k → candName stem ext (counter + j) ∈ fs := by
  intro fuel
  induction fuel with
  | zero =>
      intro counter h
      obtain ⟨j, hj, _⟩ := h
      omega
  | succ f ih =>
      intro counter h
      obtain ⟨j, hj, hfree⟩ := h
      rw [resolveLoop]
      by_cases hc : candName stem ext counter ∈ fs
      · rw [if_pos hc]
        have hj0 : j ≠ 0 := by
          intro h0
          rw [h0, Nat.add_zero] at hfree
          exact hfree hc
        have hshift : counter + 1 + (j - 1) = counter + j := by omega
        obtain ⟨k, hk1, hk2, hk3⟩ := ih (counter + 1)
          ⟨j - 1, by omega, by rw [hshift]; exact hfree⟩
        refine ⟨k + 1, ?_, ?_, ?_⟩
        · rw [hk1]; congr 1; omega
        · have heq : counter + (k + 1) = counter + 1 + k := by omega
          rw [heq]; exact hk2
        · intro j2 hj2
          cases j2 with
          | zero => rw [Nat.add_zero]; exact hc
          | succ j3 =>
              have heq : counter + (j3 + 1) = counter + 1 + j3 := by omega
              rw [heq]
              exact hk3 j3 (by omega)
      · rw [if_neg hc]
        exact ⟨0, by rw [Nat.add_zero], by rw [Nat.add_zero]; exact hc,
          fun j2 hj2 => absurd hj2 (Nat.not_lt_zero j2)⟩

/-- Specification of the collision resolution: the base name when it is
free on disk, otherwise the suffixed candidate with the least counter
`k ≥ 1` that is free — `_1` for the second occupant of a base name, `_2`
for the third, and so on, re-checked until unique. -/
def resolveSpec (fs : List Str) (stem ext r : Str) : Prop :=
  (stem ++ ext ∉ fs ∧ r = stem ++ ext) ∨
  (stem ++ ext ∈ fs ∧ ∃ k, 1 ≤ k ∧ r = candName stem ext k ∧
    candName stem ext k ∉ fs ∧
    ∀ j, 1 ≤ j → j < k → candName stem ext j ∈ fs)

theorem resolveFilename_spec (fs : List Str) (stem ext : Str) :
    resolveSpec fs stem ext (resolveFilename fs stem ext) := by
  unfold resolveFilename resolveSpec
  by_cases hb : stem ++ ext ∈ fs
  · rw [if_pos hb]
    refine Or.inr ⟨hb, ?_⟩
    obtain ⟨j, hj, hfree⟩ := exists_fresh_cand fs stem ext
    obtain ⟨k, hk1, hk2, hk3⟩ := resolveLoop_spec fs stem ext (fs.length + 1) 1
      ⟨j, hj, hfree⟩
    refine ⟨1 + k, by omega, hk1, hk2, ?_⟩
    intro j2 h1 h2
    have heq : j2 = 1 + (j2 - 1) := by omega
    rw [heq]
    exact hk3 (j2 - 1) (by omega)
  · rw [if_neg hb]
    exact Or.inl ⟨hb, rfl⟩

theorem resolveFilename_fresh (fs : List Str) (stem ext : Str) :
    resolveFilename fs stem ext ∉ fs := by
  rcases resolveFilename_spec fs stem ext with ⟨h1, h2⟩ | ⟨_, k, _, h2, h3, _⟩ <;>
    rw [h2]
  · exact h1
  · exact h3

/-- A successfully downloaded card: the card dictionary extended with the
`local_path` and `filename` fields set by `download_image`
(src lines 300-301). -/
structure DownloadedCard where
  info : CardInfo
  local_path : Str
  filename : Str
deriving DecidableEq

/-- The shared accumulators `downloaded_cards` and `failed_downloads`. -/
structure RunState where
  downloaded_cards : List DownloadedCard
  failed_downloads : List CardInfo
deriving DecidableEq

/-- The sanitized filename stem `{itemName}_{collectionCode}_{itemNumber}`
(src lines 280-283): the name is re-sanitized with spaces replaced by
underscores; the set code keeps only word characters and hyphens. -/
def downloadStem (c : CardInfo) : Str :=
  let safe_pokemon_name := (pySubNonWord c.pokemon_name).map
    (fun ch => if ch = ' ' then '_' else ch)
  let safe_set_code := c.set_code.filter (fun ch => isWordChar ch || ch = '-')
  safe_pokemon_name ++ '_' :: (safe_set_code ++ '_' :: c.card_number)

/-- The `.jpg` extension used for every image. -/
def jpgExt : Str := ".jpg".data

/-- Result of one `download_image` call: the returned Boolean, the updated
accumulators and the updated list of files on disk. -/
structure DLResult where
  success : Bool
  state : RunState
  files : List Str
deriving DecidableEq

/-- Embedding of `download_image` (src lines 269-332).  `fetchOk` states
whether `get_page_content` returned a response for the image URL, and
`writeOk` whether writing the file raised no exception (the write is
modelled as atomic).  The function is total: every exception path of the
Python code ends in the `except` branch, which records the failure and
returns `False`, so no exception reaches the caller. -/
def download_image (st : RunState) (files : List Str) (c : CardInfo)
    (fetchOk writeOk : Bool) : DLResult :=
  if fetchOk = false then
    ⟨false, { st with failed_downloads := st.failed_downloads ++ [c] }, files⟩
  else
    let filename := resolveFilename files (downloadStem c) jpgExt
    if writeOk then
      ⟨true,
        { st with downloaded_cards := st.downloaded_cards ++
            [⟨c, "images/".data ++ filename, filename⟩] },
        filename :: files⟩
    else
      ⟨false, { st with failed_downloads := st.failed_downloads ++ [c] }, files⟩

/-- Sequential download loop over one batch (src lines 442-445); per card
the two Booleans give the fetch and write outcomes. -/
def runBatchSeq : RunState → List Str → List (CardInfo × Bool × Bool) →
    RunState × List Str
  | st, files, [] => (st, files)
  | st, files, (c, fOk, wOk) :: rest =>
      runBatchSeq (download_image st files c fOk wOk).state
        (download_image st files c fOk wOk).files rest

theorem runBatchSeq_invariant :
    ∀ (cards : List (CardInfo × Bool × Bool)) (st : RunState) (files : List Str),
    (∀ d ∈ st.downloaded_cards, d.filename ∈ files) →
    (∀ d ∈ st.downloaded_cards, d.local_path = "images/".data ++ d.filename) →
    (st.downloaded_cards.map (fun d => d.filename)).Nodup →
    (∀ d ∈ (runBatchSeq st files cards).1.downloaded_cards,
        d.filename ∈ (runBatchSeq st files cards).2) ∧
    (∀ d ∈ (runBatchSeq st files cards).1.downloaded_cards,
        d.local_path = "images/".data ++ d.filename) ∧
    ((runBatchSeq st files cards).1.downloaded_cards.map
        (fun d => d.filename)).Nodup := by
  intro cards
  induction cards with
  | nil => intro st files h1 h2 h3; exact ⟨h1, h2, h3⟩
  | cons cb rest ih =>
      intro st files h1 h2 h3
      obtain ⟨c, fOk, wOk⟩ := cb
      rw [runBatchSeq]
      cases fOk with
      | false => exact ih _ _ h1 h2 h3
      | true =>
          cases wOk with
          | false => exact ih _ _ h1 h2 h3
          | true =>
              have hd : download_image st files c true true =
                  ⟨true, { st with downloaded_cards := st.downloaded_cards ++
                      [⟨c, "images/".data ++
                          resolveFilename files (downloadStem c) jpgExt,
                        resolveFilename files (downloadStem c) jpgExt⟩] },
                    resolveFilename files (downloadStem c) jpgExt :: files⟩ := rfl
              rw [hd]
              dsimp only
              apply ih
              · intro d hd
                rcases List.mem_append.mp hd with h | h
                · exact List.mem_cons_of_mem _ (h1 d h)
                · rw [List.mem_singleton.mp h]
                  exact List.mem_cons_self _ _
              · intro d hd
                rcases List.mem_append.mp hd with h | h
                · exact h2 d h
                · rw [List.mem_singleton.mp h]
              · rw [List.map_append]
                rw [List.nodup_append]
                refine ⟨h3, List.nodup_singleton _, ?_⟩
                intro fn hfn hfn2
                rw [List.map_singleton, List.mem_singleton] at hfn2
                obtain ⟨d, hd, hdf⟩ := List.mem_map.mp hfn
                have hmem := h1 d hd
                rw [hdf, hfn2] at hmem
                exact resolveFilename_fresh files (downloadStem c) jpgExt hmem

/- ### Parallel mode: the check-then-write interleaving (src 377-391) -/

/-- Phase of one parallel worker handling a single card: the
existence-check loop has not run yet, or it has produced a filename that
is still to be written, or the worker is done. -/
inductive WorkerPhase where
  | toResolve : WorkerPhase
  | toCommit : Str → WorkerPhase
  | finished : WorkerPhase
deriving DecidableEq

/-- Shared state of one parallel batch (`download_cards_parallel`,
src lines 377-391): the per-worker phases, the files on disk and the
shared accumulators. -/
structure ParState where
  workers : List (CardInfo × WorkerPhase)
  files : List Str
  st : RunState
deriving DecidableEq

/-- One scheduler step of parallel mode: advance worker `i` by one phase.
The first phase runs the existence-check loop of src lines 286-293
against the current directory; the second performs the write of src
lines 296-297 and the append of src lines 304-305.  In the source only
the list append sits inside `with self.lock`; nothing serializes one
worker's check loop with another worker's file write. -/
def parStep (s : ParState) (i : Nat) : ParState :=
  match s.workers[i]? with
  | some (c, WorkerPhase.toResolve) =>
      { s with workers := (s.workers.set i
          (c, WorkerPhase.toCommit
            (resolveFilename s.files (downloadStem c) jpgExt))) }
  | some (c, WorkerPhase.toCommit fn) =>
      { workers := s.workers.set i (c, WorkerPhase.finished),
        files := fn :: s.files,
        st := ({ s.st with downloaded_cards := (s.st.downloaded_cards ++
            [⟨c, "images/".data ++ fn, fn⟩]) }) }
  | _ => s

/-- A parallel batch over `cards` (every fetch succeeding and every write
raising nothing), executed under the worker interleaving `schedule`. -/
def parRun (cards : List CardInfo) (schedule : List Nat) : ParState :=
  schedule.foldl parStep
    ⟨cards.map (fun c => (c, WorkerPhase.toResolve)), [], ⟨[], []⟩⟩

/-- Two distinct cards (different image URLs) whose name, set code and
number sanitize to the same filename stem. -/
def pikachuCardA : CardInfo :=
  ⟨"Pikachu".data, "Pikachu · Base Set (BS) #58".data, "58".data,
    "Base Set (BS)".data, "BS".data, "imgA".data, "pageA".data⟩

/-- Second card colliding with `pikachuCardA`. -/
def pikachuCardB : CardInfo :=
  ⟨"Pikachu".data, "Pikachu · Base Set (BS) #58".data, "58".data,
    "Base Set (BS)".data, "BS".data, "imgB".data, "pageB".data⟩

/- ### Claim C2 -/

/-- Claim C2 counterexample: in parallel mode two workers downloading
distinct, identically sanitized cards can interleave so that both
existence checks run before either write — the schedule
`[0, 1, 0, 1]` — after which both items are successfully recorded with
the same `local_path` in the same run. -/
theorem C2_counterexample :
    (parRun [pikachuCardA, pikachuCardB] [0, 1, 0, 1]).st.downloaded_cards.length
        = 2 ∧
    ¬ (((parRun [pikachuCardA, pikachuCardB] [0, 1, 0, 1]).st.downloaded_cards.map
        (fun d => d.local_path)).Nodup) := by decide

/-- Claim C2 (amended): each `download_image` call resolves collisions by
appending the least free incrementing numeric suffix to the original
filename stem, re-checking existence until the path is unique
(`resolveSpec`); and in a sequential run starting from empty
accumulators, no two successfully downloaded items are recorded with the
same `local_path`.  In parallel mode the existence check and the write
are not atomic — the lock guards only the list append — so interleaved
workers can share a `local_path` (see the counterexample); uniqueness
holds when downloads do not interleave. -/
theorem C2_unique_local_paths (fs : List Str) (stem ext : Str)
    (files0 : List Str) (cards : List (CardInfo × Bool × Bool)) :
    resolveSpec fs stem ext (resolveFilename fs stem ext) ∧
    ((runBatchSeq ⟨[], []⟩ files0 cards).1.downloaded_cards.map
        (fun d => d.local_path)).Nodup := by
  refine ⟨resolveFilename_spec fs stem ext, ?_⟩
  have h := runBatchSeq_invariant cards ⟨[], []⟩ files0
    (by intro d hd; cases hd) (by intro d hd; cases hd) List.nodup_nil
  have hcong : ((runBatchSeq ⟨[], []⟩ files0 cards).1.downloaded_cards.map
      (fun d => d.local_path)) =
      ((runBatchSeq ⟨[], []⟩ files0 cards).1.downloaded_cards.map
        (fun d => "images/".data ++ d.filename)) :=
    List.map_congr_left h.2.1
  rw [hcong]
  have hmm : ((runBatchSeq ⟨[], []⟩ files0 cards).1.downloaded_cards.map
      (fun d => "images/".data ++ d.filename)) =
      (((runBatchSeq ⟨[], []⟩ files0 cards).1.downloaded_cards.map
        (fun d => d.filename)).map (fun fn => "images/".data ++ fn)) := by
    rw [List.map_map]; rfl
  rw [hmm]
  exact h.2.2.map (fun a b hab => List.append_cancel_left hab)

/- ### Claim C10 -/

/-- Claim C10: every `download_image` call records the card in exactly one
accumulator — appended to `downloaded_cards` (extended with `local_path`
and `filename`) exactly when it returns `True`, and appended to
`failed_downloads` exactly when it returns `False`.  Totality of the
embedding reflects that no exception reaches the caller. -/
theorem C10_download_image_records (st : RunState) (files : List Str)
    (c : CardInfo) (fetchOk writeOk : Bool) :
    ((download_image st files c fetchOk writeOk).success = true →
      ∃ fn, (download_image st files c fetchOk writeOk).state.downloaded_cards =
          st.downloaded_cards ++ [⟨c, "images/".data ++ fn, fn⟩] ∧
        (download_image st files c fetchOk writeOk).state.failed_downloads =
          st.failed_downloads) ∧
    ((download_image st files c fetchOk writeOk).success = false →
      (download_image st files c fetchOk writeOk).state.failed_downloads =
        st.failed_downloads ++ [c] ∧
      (download_image st files c fetchOk writeOk).state.downloaded_cards =
        st.downloaded_cards) := by
  cases fetchOk with
  | false =>
      exact ⟨fun h => absurd h (by simp [download_image]),
        fun _ => ⟨rfl, rfl⟩⟩
  | true =>
      cases writeOk with
      | true =>
          exact ⟨fun _ => ⟨resolveFilename files (downloadStem c) jpgExt,
            rfl, rfl⟩, fun h => absurd h (by simp [download_image])⟩
      | false =>
          exact ⟨fun h => absurd h (by simp [download_image]),
            fun _ => ⟨rfl, rfl⟩⟩

/-- Witness for C10 at a concrete card whose fetch and write succeed. -/
theorem C10_download_image_records_witness :
    ∃ fn,
      (download_image ⟨[], []⟩ []
        ⟨"Pikachu".data, "Pikachu".data, "25".data, "Base Set (BS)".data,
          "BS".data, "img".data, "page".data⟩ true true).state.downloaded_cards =
        [] ++ [⟨⟨"Pikachu".data, "Pikachu".data, "25".data, "Base Set (BS)".data,
          "BS".data, "img".data, "page".data⟩, "images/".data ++ fn, fn⟩] ∧
      (download_image ⟨[], []⟩ []
        ⟨"Pikachu".data, "Pikachu".data, "25".data, "Base Set (BS)".data,
          "BS".data, "img".data, "page".data⟩ true true).state.failed_downloads =
        [] :=
  (C10_download_image_records ⟨[], []⟩ []
    ⟨"Pikachu".data, "Pikachu".data, "25".data, "Base Set (BS)".data,
      "BS".data, "img".data, "page".data⟩ true true).1 (by decide)

/- ### Claim C3 -/

/-- The two shared accumulators of the scraper. -/
inductive Accumulator where
  | downloadedCards : Accumulator
  | failedDownloads : Accumulator
deriving DecidableEq

/-- One append to a shared accumulator performed by `download_image`,
tagged with whether `self.lock` is held at that moment. -/
structure MutEvent where
  target : Accumulator
  lockHeld : Bool
deriving DecidableEq

/-- The accumulator mutations performed by one `download_image` call
(src lines 269-332), in order.  The success append (src lines 304-305)
and the exception-path append (src lines 322-323) sit inside
`with self.lock` blocks; the fetch-failure append at src line 276 does
not. -/
def download_image_mutations (fetchOk writeOk : Bool) : List MutEvent :=
  if fetchOk = false then [⟨Accumulator.failedDownloads, false⟩]
  else if writeOk then [⟨Accumulator.downloadedCards, true⟩]
  else [⟨Accumulator.failedDownloads, true⟩]

/-- Claim C3 is refuted by the code: when the image fetch fails
(`get_page_content` returns `None`), the worker appends the card to
`failed_downloads` at src line 276 without holding `self.lock`, so not
every accumulator mutation is performed under the shared exclusive
lock. -/
theorem C3_unlocked_mutation :
    ∃ e ∈ download_image_mutations false true,
      e.lockHeld = false ∧ e.target = Accumulator.failedDownloads := by decide

/- ### Orchestrator: flush cadence of `scrape_all_cards` and `main` -/

/-- A metadata flush event: each `save_metadata()` call records the
accumulator state it persists to disk. -/
inductive Event where
  | saved : RunState → Event
deriving DecidableEq

/-- The cards of one scanned set batch, each with its fetch and write
outcome. -/
structure SetBatch where
  cards : List (CardInfo × Bool × Bool)
deriving DecidableEq

/-- Download loop over the cards of one set (src lines 442-445).
`budget` is the number of downloads that still complete before an
external interrupt fires (`none` means no interrupt ever fires); the
final Boolean reports whether the interrupt fired inside this batch. -/
def runCards : List (CardInfo × Bool × Bool) → RunState → List Str → Option Nat →
    RunState × List Str × Option Nat × Bool
  | [], st, files, budget => (st, files, budget, false)
  | (c, fOk, wOk) :: rest, st, files, budget =>
      match budget with
      | some 0 => (st, files, some 0, true)
      | some (n + 1) =>
          runCards rest (download_image st files c fOk wOk).state
            (download_image st files c fOk wOk).files (some n)
      | none =>
          runCards rest (download_image st files c fOk wOk).state
            (download_image st files c fOk wOk).files none

/-- The per-set loop of `scrape_all_cards` (src lines 423-454): a set with
no cards is skipped without a flush; a completed batch is followed by
`save_metadata()` (src line 448); an interrupt escapes the loop without
the per-set flush. -/
def runSets : List SetBatch → RunState → List Str → Option Nat → List Event →
    RunState × List Str × List Event × Bool
  | [], st, files, _, evs => (st, files, evs, false)
  | sb :: rest, st, files, budget, evs =>
      if sb.cards = [] then runSets rest st files budget evs
      else
        if (runCards sb.cards st files budget).2.2.2 then
          ((runCards sb.cards st files budget).1,
            (runCards sb.cards st files budget).2.1, evs, true)
        else
          runSets rest (runCards sb.cards st files budget).1
            (runCards sb.cards st files budget).2.1
            (runCards sb.cards st files budget).2.2.1
            (evs ++ [Event.saved (runCards sb.cards st files budget).1])

/-- The download phase of `scrape_all_cards` plus the handlers of `main`
(src lines 421-463 and 510-522): when the loop ends normally the final
`save_metadata()` at src line 463 runs; when a `KeyboardInterrupt` or an
unexpected error escaped the loop, the `except` handlers in `main`
perform the same flush.  Either way one last flush of the final
accumulator state closes the event trace. -/
def scrape_download_phase (sets : List SetBatch) (budget : Option Nat) :
    RunState × List Event :=
  ((runSets sets ⟨[], []⟩ [] budget []).1,
    (runSets sets ⟨[], []⟩ [] budget []).2.2.1 ++
      [Event.saved (runSets sets ⟨[], []⟩ [] budget []).1])

theorem runCards_none : ∀ (cards : List (CardInfo × Bool × Bool))
    (st : RunState) (files : List Str),
    (runCards cards st files none).2.2 = (none, false) := by
  intro cards
  induction cards with
  | nil => intro st files; rfl
  | cons cb rest ih =>
      intro st files
      obtain ⟨c, fOk, wOk⟩ := cb
      exact ih _ _

theorem runSets_none : ∀ (sets : List SetBatch) (st : RunState)
    (files : List Str) (evs : List Event),
    (runSets sets st files none evs).2.2.2 = false ∧
    (runSets sets st files none evs).2.2.1.length =
      evs.length + (sets.filter (fun sb => !sb.cards.isEmpty)).length := by
  intro sets
  induction sets with
  | nil => intro st files evs; exact ⟨rfl, by simp [runSets]⟩
  | cons sb rest ih =>
      intro st files evs
      by_cases hc : sb.cards = []
      · rw [runSets, if_pos hc]
        have hfilter : (sb :: rest).filter (fun sb => !sb.cards.isEmpty) =
            rest.filter (fun sb => !sb.cards.isEmpty) := by
          simp [List.filter_cons, hc]
        rw [hfilter]
        exact ih st files evs
      · rw [runSets, if_neg hc]
        have h4 := runCards_none sb.cards st files
        have hint : (runCards sb.cards st files none).2.2.2 = false :=
          congrArg Prod.snd h4
        have hbud : (runCards sb.cards st files none).2.2.1 = none :=
          congrArg Prod.fst h4
        rw [hint, if_neg (by simp)]
        rw [hbud]
        have hrec := ih (runCards sb.cards st files none).1
          (runCards sb.cards st files none).2.1
          (evs ++ [Event.saved (runCards sb.cards st files none).1])
        refine ⟨hrec.1, ?_⟩
        rw [hrec.2]
        have hfilter : (sb :: rest).filter (fun sb => !sb.cards.isEmpty) =
            sb :: rest.filter (fun sb => !sb.cards.isEmpty) := by
          simp [List.filter_cons, hc]
        rw [hfilter]
        simp only [List.length_append, List.length_singleton, List.length_cons,
          List.length_nil]
        omega

/- ### Claim C8 -/

/-- Claim C8: the metadata snapshot is flushed after each completed
collection batch and once more at the very end — at normal run end via
the final `save_metadata()`, and on an external interrupt or unexpected
top-level error via the handlers in `main` — so that after any outcome
the trace of flushes is nonempty and its last flush carries the full
final accumulator state; on an uninterrupted run there is exactly one
flush per nonempty collection plus the final one. -/
theorem C8_metadata_flushes (sets : List SetBatch) (budget : Option Nat) :
    (scrape_download_phase sets budget).2 ≠ [] ∧
    (scrape_download_phase sets budget).2.getLast? =
      some (Event.saved (scrape_download_phase sets budget).1) ∧
    (budget = none →
      (scrape_download_phase sets budget).2.length =
        (sets.filter (fun sb => !sb.cards.isEmpty)).length + 1) := by
  refine ⟨by simp [scrape_download_phase], ?_, ?_⟩
  · simp [scrape_download_phase, List.getLast?_concat]
  · intro hb
    subst hb
    simp only [scrape_download_phase, List.length_append, List.length_singleton]
    rw [(runSets_none sets ⟨[], []⟩ [] []).2]
    simp

/-- Witness for C8 on a concrete uninterrupted run with one nonempty set
and one empty set: exactly two flushes happen. -/
theorem C8_metadata_flushes_witness :
    (scrape_download_phase
      [⟨[(⟨"Pikachu".data, "Pikachu".data, "25".data, "Base Set (BS)".data,
          "BS".data, "img".data, "page".data⟩, true, true)]⟩, ⟨[]⟩]
      none).2.length = 2 := by
  rw [(C8_metadata_flushes
    [⟨[(⟨"Pikachu".data, "Pikachu".data, "25".data, "Base Set (BS)".data,
        "BS".data, "img".data, "page".data⟩, true, true)]⟩, ⟨[]⟩]
    none).2.2 rfl]
  decide

/- ### ResultAggregator persistence: `save_metadata` (src lines 334-375) -/

/-- Python character comparison by code point. -/
def charLe (a b : Char) : Bool := decide (a.toNat ≤ b.toNat)

/-- Python string `<=`: lexicographic comparison by code points, as used
by `sorted` and `list.sort`. -/
def strLeB : Str → Str → Bool
  | [], _ => true
  | _ :: _, [] => false
  | a :: as, b :: bs => if a = b then strLeB as bs else charLe a b

/-- Propositional form of `strLeB`. -/
def strLe (a b : Str) : Prop := strLeB a b = true

instance : DecidableRel strLe := fun a b => by unfold strLe; infer_instance

theorem charLe_total (a b : Char) : charLe a b = true ∨ charLe b a = true := by
  simp only [charLe, decide_eq_true_eq]
  omega

theorem char_toNat_inj {a b : Char} (h : a.toNat = b.toNat) : a = b :=
  Char.ext (UInt32.ext h)

theorem strLeB_refl (a : Str) : strLeB a a = true := by
  induction a with
  | nil => rfl
  | cons x xs ih => simp [strLeB, ih]

theorem strLeB_total : ∀ (a b : Str), strLeB a b = true ∨ strLeB b a = true := by
  intro a
  induction a with
  | nil => intro b; left; rfl
  | cons x xs ih =>
      intro b
      cases b with
      | nil => right; rfl
      | cons y ys =>
          by_cases hxy : x = y
          · subst hxy
            rcases ih ys with h | h
            · left; simp [strLeB, h]
            · right; simp [strLeB, h]
          · rcases charLe_total x y with h | h
            · left; rw [strLeB, if_neg hxy]; exact h
            · right; rw [strLeB, if_neg (Ne.symm hxy)]; exact h

theorem strLeB_trans : ∀ (a b c : Str), strLeB a b = true → strLeB b c = true →
    strLeB a c = true := by
  intro a
  induction a with
  | nil => intro b c _ _; rfl
  | cons x xs ih =>
      intro b c hab hbc
      cases b with
      | nil => cases hab
      | cons y ys =>
          cases c with
          | nil => cases hbc
          | cons z zs =>
              rw [strLeB] at hab hbc ⊢
              by_cases hxy : x = y
              · subst hxy
                rw [if_pos rfl] at hab
                by_cases hyz : x = z
                · subst hyz
                  rw [if_pos rfl] at hbc ⊢
                  exact ih ys zs hab hbc
                · rw [if_neg hyz] at hbc ⊢
                  exact hbc
              · rw [if_neg hxy] at hab
                by_cases hyz : y = z
                · subst hyz
                  rw [if_neg hxy]
                  exact hab
                · rw [if_neg hyz] at hbc
                  by_cases hxz : x = z
                  · subst hxz
                    exfalso
                    simp only [charLe, decide_eq_true_eq] at hab hbc
                    exact hxy (char_toNat_inj (by omega))
                  · rw [if_neg hxz]
                    simp only [charLe, decide_eq_true_eq] at hab hbc ⊢
                    omega

theorem strLeB_antisymm : ∀ (a b : Str), strLeB a b = true → strLeB b a = true →
    a = b := by
  intro a
  induction a with
  | nil =>
      intro b _ hba
      cases b with
      | nil => rfl
      | cons y ys => cases hba
  | cons x xs ih =>
      intro b hab hba
      cases b with
      | nil => cases hab
      | cons y ys =>
          rw [strLeB] at hab hba
          by_cases hxy : x = y
          · subst hxy
            rw [if_pos rfl] at hab hba
            rw [ih ys hab hba]
          · rw [if_neg hxy] at hab
            rw [if_neg (Ne.symm hxy)] at hba
            exfalso
            simp only [charLe, decide_eq_true_eq] at hab hba
            exact hxy (char_toNat_inj (by omega))

instance : IsTotal Str strLe := ⟨fun a b => strLeB_total a b⟩
instance : IsTrans Str strLe := ⟨fun a b c => strLeB_trans a b c⟩

/-- Python tuple comparison on `(set_name, count)` pairs, as used by
`sorted(sets.items())`. -/
def pairLeB (a b : Str × Nat) : Bool :=
  if a.1 = b.1 then decide (a.2 ≤ b.2) else strLeB a.1 b.1

/-- Propositional form of `pairLeB`. -/
def pairLe (a b : Str × Nat) : Prop := pairLeB a b = true

instance : DecidableRel pairLe := fun a b => by unfold pairLe; infer_instance

instance : IsTotal (Str × Nat) pairLe := by
  refine ⟨fun a b => ?_⟩
  unfold pairLe pairLeB
  by_cases h : a.1 = b.1
  · rw [if_pos h, if_pos h.symm]
    rcases Nat.le_total a.2 b.2 with h2 | h2
    · left; simpa using h2
    · right; simpa using h2
  · rw [if_neg h, if_neg (Ne.symm h)]
    exact strLeB_total a.1 b.1

instance : IsTrans (Str × Nat) pairLe := by
  refine ⟨fun a b c hab hbc => ?_⟩
  unfold pairLe pairLeB at hab hbc ⊢
  by_cases hab1 : a.1 = b.1
  · rw [if_pos hab1] at hab
    by_cases hbc1 : b.1 = c.1
    · rw [if_pos hbc1] at hbc
      rw [if_pos (hab1.trans hbc1)]
      simp only [decide_eq_true_eq] at hab hbc ⊢
      omega
    · rw [if_neg hbc1] at hbc
      rw [if_neg (fun h => hbc1 (hab1 ▸ h)), hab1]
      exact hbc
  · rw [if_neg hab1] at hab
    by_cases hbc1 : b.1 = c.1
    · rw [if_neg (fun h => hab1 (h.trans hbc1.symm)), ← hbc1]
      exact hab
    · rw [if_neg hbc1] at hbc
      by_cases hac : a.1 = c.1
      · exfalso
        rw [← hac] at hbc
        exact hab1 (strLeB_antisymm a.1 b.1 hab hbc)
      · rw [if_neg hac]
        exact strLeB_trans a.1 b.1 c.1 hab hbc

theorem pairLe_key {a b : Str × Nat} (h : pairLe a b) : strLe a.1 b.1 := by
  unfold pairLe pairLeB at h
  unfold strLe
  by_cases h1 : a.1 = b.1
  · rw [h1]; exact strLeB_refl b.1
  · rw [if_neg h1] at h; exact h

/-- The sorted unique item names of `save_metadata` (src lines 348-349):
`list(set(...))` followed by `.sort()`.  The unspecified set iteration
order is irrelevant because the result is sorted. -/
def pokemonClasses (downloaded : List DownloadedCard) : List Str :=
  List.insertionSort strLe ((downloaded.map (fun d => d.info.pokemon_name)).dedup)

/-- The lines of `metadata/pokemon_classes.txt` (src lines 351-353):
`{index}: {name}`, one per unique name, in sorted order. -/
def pokemon_classes_lines (downloaded : List DownloadedCard) : List Str :=
  (pokemonClasses downloaded).enum.map
    (fun p => natToDec p.1 ++ ':' :: ' ' :: p.2)

/-- The per-set tallies of `save_metadata` (src lines 363-369): one entry
per distinct set name among the downloaded cards, counting its cards.
The Python dict holds each key once; only the key set matters before
sorting. -/
def setCounts (downloaded : List DownloadedCard) : List (Str × Nat) :=
  ((downloaded.map (fun d => d.info.set_name)).dedup).map
    (fun k => (k, (downloaded.map (fun d => d.info.set_name)).count k))

/-- `sorted(sets.items())` (src line 372). -/
def setCountsSorted (downloaded : List DownloadedCard) : List (Str × Nat) :=
  List.insertionSort pairLe (setCounts downloaded)

/-- The breakdown lines of `metadata/download_summary.txt`
(src lines 371-373): `  {set_name}: {count} cards`. -/
def download_summary_lines (downloaded : List DownloadedCard) : List Str :=
  (setCountsSorted downloaded).map
    (fun p => ' ' :: ' ' :: (p.1 ++ ':' :: ' ' :: (natToDec p.2 ++ " cards".data)))

/- ### Claim C9 -/

/-- Claim C9: `pokemon_classes.txt` has exactly one line per unique item
name, in the format `{index}: {name}`, sorted lexicographically by name
with indices assigned in that order; and the `download_summary.txt`
breakdown lists, sorted lexicographically by collection display name, one
distinct collection per line with its succeeded-item count. -/
theorem C9_save_metadata (downloaded : List DownloadedCard) :
    List.Sorted strLe (pokemonClasses downloaded) ∧
    (pokemonClasses downloaded).Nodup ∧
    (∀ n, n ∈ pokemonClasses downloaded ↔
      n ∈ downloaded.map (fun d => d.info.pokemon_name)) ∧
    (∀ i, i < (pokemonClasses downloaded).length →
      (pokemon_classes_lines downloaded).getD i [] =
        natToDec i ++ ':' :: ' ' :: (pokemonClasses downloaded).getD i []) ∧
    List.Sorted strLe ((setCountsSorted downloaded).map (fun p => p.1)) ∧
    ((setCountsSorted downloaded).map (fun p => p.1)).Nodup ∧
    (∀ k, k ∈ (setCountsSorted downloaded).map (fun p => p.1) ↔
      k ∈ downloaded.map (fun d => d.info.set_name)) ∧
    (∀ p ∈ setCountsSorted downloaded,
      p.2 = (downloaded.map (fun d => d.info.set_name)).count p.1) := by
  have hkeys : (setCounts downloaded).map (fun p => p.1) =
      (downloaded.map (fun d => d.info.set_name)).dedup := by
    rw [setCounts, List.map_map]
    exact List.map_id' _
  have hperm : List.Perm ((setCountsSorted downloaded).map (fun p => p.1))
      ((setCounts downloaded).map (fun p => p.1)) :=
    (List.perm_insertionSort pairLe (setCounts downloaded)).map (fun p => p.1)
  refine ⟨List.sorted_insertionSort strLe _, ?_, ?_, ?_, ?_, ?_, ?_, ?_⟩
  · exact (List.perm_insertionSort strLe _).nodup_iff.mpr (List.nodup_dedup _)
  · intro n
    rw [pokemonClasses, List.mem_insertionSort, List.mem_dedup]
  · intro i hi
    rw [pokemon_classes_lines, List.getD_eq_getElem?_getD, List.getElem?_map,
      List.getElem?_enum, List.getElem?_eq_getElem hi]
    rw [List.getD_eq_getElem _ _ hi]
    rfl
  · exact List.Pairwise.map (fun p => p.1) (fun a b h => pairLe_key h)
      (List.sorted_insertionSort pairLe _)
  · rw [hperm.nodup_iff, hkeys]
    exact List.nodup_dedup _
  · intro k
    rw [hperm.mem_iff, hkeys, List.mem_dedup]
  · intro p hp
    rw [setCountsSorted, List.mem_insertionSort, setCounts] at hp
    obtain ⟨k, _, rfl⟩ := List.mem_map.mp hp
    rfl

/-- Witness for C9 on a concrete run of two downloaded cards from two
sets: line 0 of the classes file has index 0 and the first sorted name,
and the breakdown entry of the Base Set counts exactly 1 card. -/
theorem C9_save_metadata_witness :
    (pokemon_classes_lines
        [⟨⟨"Pikachu".data, "t1".data, "25".data, "Jungle (JU)".data, "JU".data,
            "i1".data, "p1".data⟩, "lp1".data, "fn1".data⟩,
         ⟨⟨"Abra".data, "t2".data, "43".data, "Base Set (BS)".data, "BS".data,
            "i2".data, "p2".data⟩, "lp2".data, "fn2".data⟩]).getD 0 [] =
      natToDec 0 ++ ':' :: ' ' ::
        (pokemonClasses
          [⟨⟨"Pikachu".data, "t1".data, "25".data, "Jungle (JU)".data, "JU".data,
              "i1".data, "p1".data⟩, "lp1".data, "fn1".data⟩,
           ⟨⟨"Abra".data, "t2".data, "43".data, "Base Set (BS)".data, "BS".data,
              "i2".data, "p2".data⟩, "lp2".data, "fn2".data⟩]).getD 0 [] ∧
    ("Base Set (BS)".data, 1).2 =
      (([⟨⟨"Pikachu".data, "t1".data, "25".data, "Jungle (JU)".data, "JU".data,
            "i1".data, "p1".data⟩, "lp1".data, "fn1".data⟩,
         ⟨⟨"Abra".data, "t2".data, "43".data, "Base Set (BS)".data, "BS".data,
            "i2".data, "p2".data⟩, "lp2".data, "fn2".data⟩] :
          List DownloadedCard).map (fun d => d.info.set_name)).count
        ("Base Set (BS)".data, 1).1 := by
  have h := C9_save_metadata
    [⟨⟨"Pikachu".data, "t1".data, "25".data, "Jungle (JU)".data, "JU".data,
        "i1".data, "p1".data⟩, "lp1".data, "fn1".data⟩,
     ⟨⟨"Abra".data, "t2".data, "43".data, "Base Set (BS)".data, "BS".data,
        "i2".data, "p2".data⟩, "lp2".data, "fn2".data⟩]
  exact ⟨h.2.2.2.1 0 (by decide),
    h.2.2.2.2.2.2.2 ("Base Set (BS)".data, 1) (by decide)⟩

end Scraper
